import Mathlib

/-!
Verification of the `GeneratedCodeBasicInfo` pass (`generatedcodebasicinfo.cpp`)
and the `Architecture` descriptor (`revamb.h`) of the hybitor repository.

The embedding mirrors the source:
* an LLVM instruction is abstracted to what the pass inspects: whether it is a
  call, the (possibly null) name of the called function, and its integer
  argument operands (`getLimitedValue` of `getArgOperand(i)`);
* a basic block is its ordered instruction list plus its predecessor list;
* `GeneratedCodeBasicInfo::runOnFunction` (block classification) and
  `GeneratedCodeBasicInfo::getPC` (backward marker search) are translated
  statement by statement.  The `while (!WorkList.empty())` loop is run on an
  explicit fuel that provably never runs out (`getPCLoop_measure`);
  `GetPCResult.outOfFuel` is the sentinel for fuel exhaustion and is shown
  unreachable for the fuel used by `getPC`.
* C `assert` failures are modelled as explicit outcomes (`GetPCResult.assertFail`
  for `getPC`, `Option.none` for classification).
-/

/-- An instruction as seen by the pass: either a call (with the name of the
called function when it is direct, `none` for an indirect call, and the
integer values of its argument operands) or any other instruction. -/
inductive Instr where
  | call (callee : Option String) (args : List Nat)
  | other
deriving DecidableEq, Repr

/-- A basic block: an identifier (standing for the block's identity/address),
its ordered list of instructions and the identifiers of its predecessors. -/
structure BasicBlock where
  id : Nat
  insts : List Instr
  preds : List Nat
deriving DecidableEq, Repr

/-- A function under analysis.  `dispatcherId`, `anyPCId` and `unexpectedPCId`
identify the three producer-supplied distinguished blocks; `archMD` is the
`revamb.input.architecture` named metadata tuple (delay-slot size and PC
storage name), `none` when the metadata is missing or malformed. -/
structure Func where
  blocks : List BasicBlock
  dispatcherId : Nat
  anyPCId : Nat
  unexpectedPCId : Nat
  archMD : Option (Nat × String)
deriving DecidableEq, Repr

/-- Look a block up by identifier (pointer dereference in the source). -/
def Func.find? (f : Func) (i : Nat) : Option BasicBlock :=
  f.blocks.find? (fun b => b.id == i)

/-- Source `generatedcodebasicinfo.cpp:97-100`: the scanned instruction is a
`CallInst`, its called function is non-null and its name is `"newpc"`. -/
def isNewPCCall : Instr → Bool
  | .call (some n) _ => decide (n = "newpc")
  | _ => false

/-- Source `generatedcodebasicinfo.cpp:96-110` (inner loop): scan the instructions of
a block backward starting at index `i` down to index `0`, returning the index
of the first call to `newpc` encountered, `none` if there is none. -/
def scanFrom (insts : List Instr) : Nat → Option Nat
  | 0 => if isNewPCCall (insts.getD 0 .other) then some 0 else none
  | i + 1 =>
    if isNewPCCall (insts.getD (i + 1) .other) then some (i + 1)
    else scanFrom insts i

/-- A position inside a block: the block identifier and an instruction index.
Used both for query points (`Instruction *`) and for the block-reverse-iterator
worklist entries of `getPC`; as a worklist cursor, `⟨bid, idx⟩` denotes the
backward scan of block `bid` covering indices `idx, idx-1, ..., 0`. -/
structure Cursor where
  bid : Nat
  idx : Nat
deriving DecidableEq, Repr

/-- Source `generatedcodebasicinfo.cpp:122-129`: for each predecessor of the scanned
block, in order, push a cursor scanning it from its last instruction unless the
predecessor is empty or already visited, and record it as visited.  Returns the
updated worklist (FIFO: pushes append at the tail) and visited set. -/
def pushPreds (f : Func) : List Nat → List Cursor → List Nat → List Cursor × List Nat
  | [], wl, vis => (wl, vis)
  | p :: ps, wl, vis =>
    match f.find? p with
    | none => pushPreds f ps wl vis
    | some pb =>
      if pb.insts ≠ [] ∧ p ∉ vis then
        pushPreds f ps (wl ++ [⟨p, pb.insts.length - 1⟩]) (p :: vis)
      else
        pushPreds f ps wl vis

/-- Outcome of `GeneratedCodeBasicInfo::getPC`.  `ok pc size` is the returned
`std::pair`; the source encodes Unknown as `ok 0 0`.  `assertFail` models a
failing C `assert`; `outOfFuel` is the fuel sentinel, proved unreachable. -/
inductive GetPCResult where
  | ok (pc size : Nat)
  | assertFail
  | outOfFuel
deriving DecidableEq, Repr

/-- Source `generatedcodebasicinfo.cpp:134-141`: after the search, return `{0, 0}` if
no `newpc` call was found, otherwise read the marker's two argument operands,
assert that the size is non-zero and return the pair.  The recorded candidate
is identified by its position (block identifier, instruction index). -/
def getPCFinal (f : Func) : Option (Nat × Nat) → GetPCResult
  | none => .ok 0 0
  | some (b, j) =>
    match f.find? b with
    | none => .ok 0 0
    | some bb =>
      match bb.insts.getD j .other with
      | .call _ args =>
        if args.getD 1 0 = 0 then .assertFail
        else .ok (args.getD 0 0) (args.getD 1 0)
      | .other => .ok 0 0

/-- Source `generatedcodebasicinfo.cpp:89-132`, the `while (!WorkList.empty())` loop.
State: the candidate marker `newPC` (`NewPCCall`, identified by position), the
visited set and the worklist.  Each iteration pops a cursor, scans its block
backward for a `newpc` call; on a find with a candidate already recorded it
returns `{0, 0}` (two markers); on a first find it records the candidate; on no
find with no candidate recorded it asserts that no predecessor is the
dispatcher and enqueues the unvisited non-empty predecessors. -/
def getPCLoop (f : Func) (disp : Option Nat) : Nat → Option (Nat × Nat) → List Nat → List Cursor → GetPCResult
  | _, newPC, _, [] => getPCFinal f newPC
  | 0, _, _, _ :: _ => .outOfFuel
  | fuel + 1, newPC, vis, c :: rest =>
    match f.find? c.bid with
    | none => getPCLoop f disp fuel newPC vis rest
    | some bb =>
      match scanFrom bb.insts c.idx with
      | some j =>
        if newPC.isSome then .ok 0 0
        else getPCLoop f disp fuel (some (c.bid, j)) vis rest
      | none =>
        match newPC with
        | some q => getPCLoop f disp fuel (some q) vis rest
        | none =>
          if bb.preds.any (fun p => decide (disp = some p)) then .assertFail
          else
            let r := pushPreds f bb.preds rest vis
            getPCLoop f disp fuel none r.2 r.1

/-- Source `generatedcodebasicinfo.cpp:84-87`: the initial worklist entry.  If the
query point is the first instruction of its block the source pushes
`--parent->rend()`, a reverse iterator whose scan covers exactly the block's
first instruction; otherwise it pushes `make_reverse_iterator(point)`, whose
scan starts at the instruction immediately preceding the point. -/
def seedCursor (pt : Cursor) : Cursor :=
  if pt.idx = 0 then ⟨pt.bid, 0⟩ else ⟨pt.bid, pt.idx - 1⟩

/-- Fuel for the worklist loop: the loop pops one entry per iteration and the
total number of entries ever enqueued is at most `blocks + 1` (the seed plus at
most one visited-guarded push per block), so this fuel never runs out. -/
def getPCFuel (f : Func) : Nat := f.blocks.length + 1

/-- Source `GeneratedCodeBasicInfo::getPC` (`generatedcodebasicinfo.cpp:79-142`).
`disp` is the `Dispatcher` member of the pass (the block identifier recorded by
classification, `none` while null). -/
def getPC (f : Func) (disp : Option Nat) (pt : Cursor) : GetPCResult :=
  getPCLoop f disp (getPCFuel f) none [] [seedCursor pt]

/-! ### Measure of the worklist loop -/

/-- Number of blocks of `f` not yet in the visited set. -/
def unvisitedCount (f : Func) (vis : List Nat) : Nat :=
  f.blocks.countP (fun b => decide (b.id ∉ vis))

theorem countP_le_of_imp {α : Type} {p q : α → Bool} (l : List α)
    (h : ∀ a, p a = true → q a = true) : l.countP p ≤ l.countP q := by
  induction l with
  | nil => simp [List.countP_nil]
  | cons b t ih =>
    simp only [List.countP_cons]
    by_cases hb : p b = true
    · simp [hb, h b hb]; omega
    · simp only [Bool.not_eq_true] at hb
      simp [hb]
      split <;> omega

theorem countP_lt_of_mem {α : Type} {p q : α → Bool} {l : List α}
    (h : ∀ a, p a = true → q a = true) {a : α} (ha : a ∈ l)
    (hpa : p a = false) (hqa : q a = true) : l.countP p < l.countP q := by
  induction l with
  | nil => cases ha
  | cons b t ih =>
    simp only [List.countP_cons]
    rcases List.mem_cons.mp ha with rfl | hmem
    · have := countP_le_of_imp t h
      simp [hpa, hqa]; omega
    · have := ih hmem
      by_cases hb : p b = true
      · simp [hb, h b hb]; omega
      · simp only [Bool.not_eq_true] at hb
        simp [hb]; split <;> omega

theorem unvisitedCount_cons_lt (f : Func) {p : Nat} {vis : List Nat}
    {pb : BasicBlock} (hfind : f.find? p = some pb) (hnv : p ∉ vis) :
    unvisitedCount f (p :: vis) < unvisitedCount f vis := by
  have hmem : pb ∈ f.blocks := List.mem_of_find?_eq_some hfind
  have hid : pb.id = p := by
    have := List.find?_some hfind
    simpa using this
  apply countP_lt_of_mem (a := pb) _ hmem
  · simp [hid]
  · simp [hid, hnv]
  · intro b hb
    simp only [decide_eq_true_eq] at hb ⊢
    intro hmem2
    exact hb (List.mem_cons_of_mem _ hmem2)

theorem pushPreds_measure (f : Func) :
    ∀ (ps : List Nat) (wl : List Cursor) (vis : List Nat),
      (pushPreds f ps wl vis).1.length + unvisitedCount f (pushPreds f ps wl vis).2
        ≤ wl.length + unvisitedCount f vis := by
  intro ps
  induction ps with
  | nil => intro wl vis; simp [pushPreds]
  | cons p ps ih =>
    intro wl vis
    simp only [pushPreds]
    cases hfind : f.find? p with
    | none => exact ih wl vis
    | some pb =>
      by_cases hc : pb.insts ≠ [] ∧ p ∉ vis
      · simp only [if_pos hc]
        have h1 := ih (wl ++ [⟨p, pb.insts.length - 1⟩]) (p :: vis)
        have h2 := unvisitedCount_cons_lt f hfind hc.2
        simp only [List.length_append, List.length_singleton] at h1
        omega
      · simp only [if_neg hc]
        exact ih wl vis

theorem getPCFinal_shape (f : Func) (x : Option (Nat × Nat)) :
    getPCFinal f x = .assertFail ∨ getPCFinal f x = .ok 0 0 ∨
      ∃ a s, getPCFinal f x = .ok a s ∧ s ≠ 0 := by
  unfold getPCFinal
  split
  · right; left; rfl
  · split
    · right; left; rfl
    · split
      · split
        · left; rfl
        · rename_i hs
          right; right; exact ⟨_, _, rfl, hs⟩
      · right; left; rfl

theorem getPCFinal_ne_outOfFuel (f : Func) (x : Option (Nat × Nat)) :
    getPCFinal f x ≠ .outOfFuel := by
  rcases getPCFinal_shape f x with h | h | ⟨a, s, h, _⟩ <;> simp [h]

theorem getPCLoop_measure (f : Func) (disp : Option Nat) :
    ∀ (fuel : Nat) (newPC : Option (Nat × Nat)) (vis : List Nat) (wl : List Cursor),
      wl.length + unvisitedCount f vis ≤ fuel →
      getPCLoop f disp fuel newPC vis wl ≠ .outOfFuel := by
  intro fuel
  induction fuel with
  | zero =>
    intro newPC vis wl h
    have : wl = [] := List.length_eq_zero.mp (by omega)
    subst this
    exact getPCFinal_ne_outOfFuel f newPC
  | succ n ih =>
    intro newPC vis wl h
    cases wl with
    | nil => exact getPCFinal_ne_outOfFuel f newPC
    | cons c rest =>
      have hrest : rest.length + unvisitedCount f vis ≤ n := by
        simp only [List.length_cons] at h; omega
      cases hfind : f.find? c.bid with
      | none => simpa only [getPCLoop, hfind] using ih newPC vis rest hrest
      | some bb =>
        cases hscan : scanFrom bb.insts c.idx with
        | some j =>
          cases newPC with
          | some q => simp [getPCLoop, hfind, hscan]
          | none =>
            simpa only [getPCLoop, hfind, hscan, Option.isSome_none,
              Bool.false_eq_true, if_false] using ih (some (c.bid, j)) vis rest hrest
        | none =>
          cases newPC with
          | some q => simpa only [getPCLoop, hfind, hscan] using ih (some q) vis rest hrest
          | none =>
            simp only [getPCLoop, hfind, hscan]
            split
            · simp
            · exact ih _ _ _ (by have := pushPreds_measure f bb.preds rest vis; omega)

theorem getPC_ne_outOfFuel (f : Func) (disp : Option Nat) (pt : Cursor) :
    getPC f disp pt ≠ .outOfFuel := by
  apply getPCLoop_measure
  have : unvisitedCount f [] ≤ f.blocks.length := List.countP_le_length _
  simp only [getPCFuel, List.length_singleton]
  omega

theorem getPCLoop_shape (f : Func) (disp : Option Nat) :
    ∀ (fuel : Nat) (newPC : Option (Nat × Nat)) (vis : List Nat) (wl : List Cursor),
      getPCLoop f disp fuel newPC vis wl = .assertFail ∨
      getPCLoop f disp fuel newPC vis wl = .ok 0 0 ∨
      (∃ a s, getPCLoop f disp fuel newPC vis wl = .ok a s ∧ s ≠ 0) ∨
      getPCLoop f disp fuel newPC vis wl = .outOfFuel := by
  intro fuel
  induction fuel with
  | zero =>
    intro newPC vis wl
    cases wl with
    | nil =>
      simp only [getPCLoop]
      rcases getPCFinal_shape f newPC with h | h | h
      · exact Or.inl h
      · exact Or.inr (Or.inl h)
      · exact Or.inr (Or.inr (Or.inl h))
    | cons c rest => simp [getPCLoop]
  | succ n ih =>
    intro newPC vis wl
    cases wl with
    | nil =>
      simp only [getPCLoop]
      rcases getPCFinal_shape f newPC with h | h | h
      · exact Or.inl h
      · exact Or.inr (Or.inl h)
      · exact Or.inr (Or.inr (Or.inl h))
    | cons c rest =>
      cases hfind : f.find? c.bid with
      | none => simpa only [getPCLoop, hfind] using ih newPC vis rest
      | some bb =>
        cases hscan : scanFrom bb.insts c.idx with
        | some j =>
          cases newPC with
          | some q => simp [getPCLoop, hfind, hscan]
          | none =>
            simpa only [getPCLoop, hfind, hscan, Option.isSome_none,
              Bool.false_eq_true, if_false] using ih (some (c.bid, j)) vis rest
        | none =>
          cases newPC with
          | some q => simpa only [getPCLoop, hfind, hscan] using ih (some q) vis rest
          | none =>
            simp only [getPCLoop, hfind, hscan]
            split
            · left; rfl
            · exact ih _ _ _

/-! ### Block classification (`GeneratedCodeBasicInfo::runOnFunction`) -/

/-- Source `revamb.h:34-43`: classification of the basic blocks created during
translation. -/
inductive BlockType where
  | UntypedBlock
  | DispatcherBlock
  | AnyPCBlock
  | UnexpectedPCBlock
  | JumpTargetBlock
deriving DecidableEq, Repr

/-- Modelled from the spec: `getType` is declared in the header
`generatedcodebasicinfo.h`, which is not part of the sources.  Per the spec
(section 4.3), a non-empty block's role is determined by identity against the
three producer-supplied distinguished blocks (Dispatcher, AnyPC, UnexpectedPC)
or by the presence of a leading marker call (JumpTarget); all else is
Untyped. -/
def getType (f : Func) (bb : BasicBlock) : BlockType :=
  if bb.id = f.dispatcherId then .DispatcherBlock
  else if bb.id = f.anyPCId then .AnyPCBlock
  else if bb.id = f.unexpectedPCId then .UnexpectedPCBlock
  else
    match bb.insts.head? with
    | some i => if isNewPCCall i then .JumpTargetBlock else .UntypedBlock
    | none => .UntypedBlock

/-- The `JumpTargets` table: an association list from address to block
identifier with `std::map` assignment semantics (`jtInsert` replaces the value
bound to an existing key and keeps keys unique). -/
def jtInsert (addr bid : Nat) : List (Nat × Nat) → List (Nat × Nat)
  | [] => [(addr, bid)]
  | (a, b) :: rest =>
    if a = addr then (addr, bid) :: rest else (a, b) :: jtInsert addr bid rest

/-- Lookup in the `JumpTargets` table (the spec's `jumpTargetFor`). -/
def jumpTargetFor (m : List (Nat × Nat)) (addr : Nat) : Option Nat :=
  (m.find? (fun e => e.1 == addr)).map (fun e => e.2)

/-- Output of `GeneratedCodeBasicInfo::runOnFunction`: the three singleton
block references, the `JumpTargets` table, and the two values extracted from
the architecture metadata (`DelaySlotSize` and the PC storage name). -/
structure GCBI where
  dispatcher : Option Nat
  anyPC : Option Nat
  unexpectedPC : Option Nat
  jumpTargets : List (Nat × Nat)
  delaySlot : Nat
  pcName : String
deriving DecidableEq, Repr

/-- Source `generatedcodebasicinfo.cpp:41-68`, one iteration of the block loop:
empty blocks are skipped; otherwise the block's role decides the action.
Assigning a singleton role whose slot is already filled, or a jump-target
block whose first instruction is not a direct call named `newpc`, is a failing
`assert`, modelled as `none`. -/
def classifyBlock (f : Func) (st : GCBI) (bb : BasicBlock) : Option GCBI :=
  if bb.insts = [] then some st
  else
    match getType f bb with
    | .DispatcherBlock =>
      match st.dispatcher with
      | some _ => none
      | none => some { st with dispatcher := some bb.id }
    | .AnyPCBlock =>
      match st.anyPC with
      | some _ => none
      | none => some { st with anyPC := some bb.id }
    | .UnexpectedPCBlock =>
      match st.unexpectedPC with
      | some _ => none
      | none => some { st with unexpectedPC := some bb.id }
    | .JumpTargetBlock =>
      match bb.insts.head? with
      | some (.call callee args) =>
        if callee = some "newpc" then
          some { st with jumpTargets := jtInsert (args.getD 0 0) bb.id st.jumpTargets }
        else none
      | _ => none
    | .UntypedBlock => some st

/-- The block loop of `runOnFunction`, folded over the function's blocks. -/
def classifyBlocks (f : Func) : List BasicBlock → GCBI → Option GCBI
  | [], st => some st
  | bb :: bbs, st =>
    match classifyBlock f st bb with
    | none => none
    | some st2 => classifyBlocks f bbs st2

/-- Source `GeneratedCodeBasicInfo::runOnFunction` (`generatedcodebasicinfo.cpp:29-77`).
Missing or malformed `revamb.input.architecture` metadata is fatal (lines
32-39); after the block loop the three singleton blocks must all have been
found (lines 70-72). -/
def runOnFunction (f : Func) : Option GCBI :=
  match f.archMD with
  | none => none
  | some (dss, pc) =>
    match classifyBlocks f f.blocks ⟨none, none, none, [], dss, pc⟩ with
    | none => none
    | some st =>
      if st.dispatcher.isSome ∧ st.anyPC.isSome ∧ st.unexpectedPC.isSome then some st
      else none

/-! ### Architecture descriptor (`revamb.h:46-106`) -/

/-- Source `revamb.h:49-52`. -/
inductive EndianessType where
  | LittleEndian
  | BigEndian
deriving DecidableEq, Repr

/-- Source `revamb.h:46-106`, the fields initialised by the constructors.  The
`llvm::Triple::ArchType Type` member is left uninitialised by the default
constructor and is outside the claims, so it is not modelled. -/
structure Architecture where
  InstructionAlignment : Nat
  DefaultAlignment : Nat
  Endianess : EndianessType
  PointerSize : Nat
  SyscallHelper : String
  SyscallNumberRegister : String
  NoReturnSyscalls : List Nat
  DelaySlotSize : Nat
deriving DecidableEq, Repr

/-- Source `revamb.h:55-60`, the default constructor (`StringRef` and `ArrayRef`
members default-construct to empty). -/
def Architecture.mkDefault : Architecture :=
  { InstructionAlignment := 1
    DefaultAlignment := 1
    Endianess := .LittleEndian
    PointerSize := 64
    SyscallHelper := ""
    SyscallNumberRegister := ""
    NoReturnSyscalls := []
    DelaySlotSize := 0 }

/-- Source `revamb.h:81`. -/
def Architecture.instructionAlignment (a : Architecture) : Nat := a.InstructionAlignment

/-- Source `revamb.h:82`. -/
def Architecture.defaultAlignment (a : Architecture) : Nat := a.DefaultAlignment

/-- Source `revamb.h:83`. -/
def Architecture.endianess (a : Architecture) : EndianessType := a.Endianess

/-- Source `revamb.h:84`. -/
def Architecture.pointerSize (a : Architecture) : Nat := a.PointerSize

/-- Source `revamb.h:85`. -/
def Architecture.isLittleEndian (a : Architecture) : Bool :=
  decide (a.Endianess = EndianessType.LittleEndian)

/-- Source `revamb.h:91`. -/
def Architecture.delaySlotSize (a : Architecture) : Nat := a.DelaySlotSize

/-! ### Concrete functions used by witnesses and counterexamples -/

/-- A `newpc` marker call carrying (address, size). -/
def mkMarker (a s : Nat) : Instr := .call (some "newpc") [a, s]

/-- The spec's worked example (section 8): B0 = Dispatcher, B1 = AnyPC,
B2 = UnexpectedPC, B3 = JumpTarget with marker (0x1000, 4) and predecessor B0,
B4 = JumpTarget with marker (0x1004, 2) and predecessor B3. -/
def exB0 : BasicBlock := ⟨0, [.other], []⟩

def exB1 : BasicBlock := ⟨1, [.other], []⟩

def exB2 : BasicBlock := ⟨2, [.other], []⟩

def exB3 : BasicBlock := ⟨3, [mkMarker 4096 4, .other], [0]⟩

def exB4 : BasicBlock := ⟨4, [mkMarker 4100 2, .other], [3]⟩

def exF : Func := ⟨[exB0, exB1, exB2, exB3, exB4], 0, 1, 2, some (0, "pc")⟩

/-- The classifier output on `exF`. -/
def exInfo : GCBI := ⟨some 0, some 1, some 2, [(4096, 3), (4100, 4)], 0, "pc"⟩

example : runOnFunction exF = some exInfo := by decide

/-! ### Instrumentation: every cursor enqueued on the worklist -/

/-- The cursors pushed by one `pushPreds` call, in push order (instrumentation
used to count worklist enqueues). -/
def pushedCursors (f : Func) : List Nat → List Nat → List Cursor
  | [], _ => []
  | p :: ps, vis =>
    match f.find? p with
    | none => pushedCursors f ps vis
    | some pb =>
      if pb.insts ≠ [] ∧ p ∉ vis then
        ⟨p, pb.insts.length - 1⟩ :: pushedCursors f ps (p :: vis)
      else pushedCursors f ps vis

/-- Instrumented copy of `getPCLoop`: identical control flow, but returns the
list of every cursor ever enqueued on the worklist instead of the result. -/
def getPCLoopE (f : Func) (disp : Option Nat) : Nat → Option (Nat × Nat) → List Nat → List Cursor → List Cursor → List Cursor
  | _, _, _, [], acc => acc
  | 0, _, _, _ :: _, acc => acc
  | fuel + 1, newPC, vis, c :: rest, acc =>
    match f.find? c.bid with
    | none => getPCLoopE f disp fuel newPC vis rest acc
    | some bb =>
      match scanFrom bb.insts c.idx with
      | some j =>
        if newPC.isSome then acc
        else getPCLoopE f disp fuel (some (c.bid, j)) vis rest acc
      | none =>
        match newPC with
        | some q => getPCLoopE f disp fuel (some q) vis rest acc
        | none =>
          if bb.preds.any (fun p => decide (disp = some p)) then acc
          else
            let r := pushPreds f bb.preds rest vis
            getPCLoopE f disp fuel none r.2 r.1 (acc ++ pushedCursors f bb.preds vis)

/-- All cursors enqueued on the worklist during `getPC` (the seed plus every
predecessor push), in enqueue order. -/
def getPCEnqueues (f : Func) (disp : Option Nat) (pt : Cursor) : List Cursor :=
  getPCLoopE f disp (getPCFuel f) none [] [seedCursor pt] [seedCursor pt]

theorem pushed_measure (f : Func) :
    ∀ (ps : List Nat) (wl : List Cursor) (vis : List Nat),
      (pushedCursors f ps vis).length + unvisitedCount f (pushPreds f ps wl vis).2
        ≤ unvisitedCount f vis := by
  intro ps
  induction ps with
  | nil => intro wl vis; simp [pushedCursors, pushPreds]
  | cons p ps ih =>
    intro wl vis
    simp only [pushedCursors, pushPreds]
    cases hfind : f.find? p with
    | none => exact ih wl vis
    | some pb =>
      by_cases hc : pb.insts ≠ [] ∧ p ∉ vis
      · simp only [if_pos hc, List.length_cons]
        have h1 := ih (wl ++ [⟨p, pb.insts.length - 1⟩]) (p :: vis)
        have h2 := unvisitedCount_cons_lt f hfind hc.2
        omega
      · simp only [if_neg hc]
        exact ih wl vis

theorem getPCLoopE_length (f : Func) (disp : Option Nat) :
    ∀ (fuel : Nat) (newPC : Option (Nat × Nat)) (vis : List Nat) (wl : List Cursor)
      (acc : List Cursor),
      (getPCLoopE f disp fuel newPC vis wl acc).length ≤ acc.length + unvisitedCount f vis := by
  intro fuel
  induction fuel with
  | zero =>
    intro newPC vis wl acc
    cases wl <;> simp [getPCLoopE]
  | succ n ih =>
    intro newPC vis wl acc
    cases wl with
    | nil => simp [getPCLoopE]
    | cons c rest =>
      cases hfind : f.find? c.bid with
      | none =>
        simp only [getPCLoopE, hfind]
        exact ih newPC vis rest acc
      | some bb =>
        cases hscan : scanFrom bb.insts c.idx with
        | some j =>
          cases newPC with
          | some q => simp [getPCLoopE, hfind, hscan]
          | none =>
            simp only [getPCLoopE, hfind, hscan, Option.isSome_none,
              Bool.false_eq_true, if_false]
            exact ih (some (c.bid, j)) vis rest acc
        | none =>
          cases newPC with
          | some q =>
            simp only [getPCLoopE, hfind, hscan]
            exact ih (some q) vis rest acc
          | none =>
            simp only [getPCLoopE, hfind, hscan]
            split
            · omega
            · have h1 := ih none (pushPreds f bb.preds rest vis).2
                (pushPreds f bb.preds rest vis).1 (acc ++ pushedCursors f bb.preds vis)
              have h2 := pushed_measure f bb.preds rest vis
              simp only [List.length_append] at h1
              omega

/-! ### Claims about the PC resolver -/

/-- Claim C2 counterexample input: a single block whose first instruction is a
marker call `newpc(0x1000, 4)` and which has no predecessors. -/
def c2F : Func := ⟨[⟨0, [mkMarker 4096 4, .other], []⟩], 10, 11, 12, some (0, "pc")⟩

/-- Claim C2 counterexample input: identical to `c2F` except for the
instructions of block 0 (no marker). -/
def c2F2 : Func := ⟨[⟨0, [.other, .other], []⟩], 10, 11, 12, some (0, "pc")⟩

/-- Claim C2, counterexample.  The query point `⟨0, 0⟩` is the first
instruction of its block and the block has no predecessors.  Under the claim
the scan would examine no instruction of the block (the point included) and
move to the predecessors, of which there are none, so both queries would
return Unknown `{0, 0}`.  The code instead examines exactly the first
instruction (the point itself): on `c2F` it finds the marker at the point and
returns `Found(0x1000, 4)`. -/
theorem claim_C2_counterexample :
    getPC c2F none ⟨0, 0⟩ = .ok 4096 4 ∧ getPC c2F2 none ⟨0, 0⟩ = .ok 0 0 := by
  decide

/-- Claim C2, amended: `resolvePC` seeds its backward search from the
instruction immediately preceding the query point; for a point that is the
first instruction of its block, the seeded cursor scans exactly the block's
first instruction — the point itself — before the search moves to the block's
predecessors.  Both cases collapse to the single seed cursor
`⟨b, i - 1⟩` (truncated subtraction, so `i = 0` gives `⟨b, 0⟩`, a scan of the
first instruction only). -/
theorem claim_C2_amended (f : Func) (disp : Option Nat) (b i : Nat) :
    getPC f disp ⟨b, i⟩ = getPCLoop f disp (getPCFuel f) none [] [⟨b, i - 1⟩] := by
  cases i <;> simp [getPC, seedCursor]

/-- Claim C6: if, while no marker has yet been found (`newPC = none`), the
scan of a popped block finds nothing and the dispatcher is among that block's
predecessors, the search hits the failing assertion
(`generatedcodebasicinfo.cpp:117`) — the outcome is `assertFail`, never a
legitimate Unknown or Found result. -/
theorem claim_C6_dispatcher_assert (f : Func) (disp : Option Nat) (fuel : Nat)
    (vis : List Nat) (c : Cursor) (rest : List Cursor) (bb : BasicBlock) (d : Nat)
    (hfind : f.find? c.bid = some bb)
    (hscan : scanFrom bb.insts c.idx = none)
    (hd : d ∈ bb.preds) (hdisp : disp = some d) :
    getPCLoop f disp (fuel + 1) none vis (c :: rest) = .assertFail := by
  have hany : bb.preds.any (fun p => decide (disp = some p)) = true :=
    List.any_eq_true.mpr ⟨d, hd, by simp [hdisp]⟩
  simp [getPCLoop, hfind, hscan, hany]

/-- Claim C6 witness input: block 1 contains no marker and has the dispatcher
(block 0) as predecessor. -/
def c6F : Func := ⟨[⟨0, [.other], []⟩, ⟨1, [.other], [0]⟩], 0, 10, 11, some (0, "pc")⟩

/-- Claim C7: every terminating call of `getPC` returns exactly one of the two
outcomes: Unknown, encoded `{0, 0}`, or `Found(address, size)` with
`size > 0` (so the two encodings never coincide).  The failing assertions are
modelled as the separate non-returning outcome `assertFail`; Unknown is the
value returned both by the no-marker path (line 136) and by the
two-distinct-markers path (line 104). -/
theorem claim_C7_result_shape (f : Func) (disp : Option Nat) (pt : Cursor) :
    getPC f disp pt = .assertFail ∨ getPC f disp pt = .ok 0 0 ∨
      ∃ a s, getPC f disp pt = .ok a s ∧ 0 < s := by
  have h := getPCLoop_shape f disp (getPCFuel f) none [] [seedCursor pt]
  have hne := getPC_ne_outOfFuel f disp pt
  simp only [getPC] at hne ⊢
  rcases h with h | h | ⟨a, s, h, hs⟩ | h
  · exact Or.inl h
  · exact Or.inr (Or.inl h)
  · exact Or.inr (Or.inr ⟨a, s, h, Nat.pos_of_ne_zero hs⟩)
  · exact absurd h hne

/-- Claim C9: for a block whose first instruction is a marker call carrying
`(a, s)` with `s > 0`, `getPC` on the instruction immediately following the
marker (index 1) returns `Found(a, s)`.  The seed cursor scans index 0, finds
the marker at once and the worklist is empty, so no other marker can even be
explored — the claim's reachability proviso is automatically satisfied. -/
theorem claim_C9_marker_successor (f : Func) (disp : Option Nat) (b : Nat)
    (bb : BasicBlock) (a s : Nat)
    (hfind : f.find? b = some bb)
    (hhead : bb.insts.head? = some (.call (some "newpc") [a, s]))
    (hs : s ≠ 0) :
    getPC f disp ⟨b, 1⟩ = .ok a s := by
  obtain ⟨t, hinsts⟩ : ∃ t, bb.insts = Instr.call (some "newpc") [a, s] :: t := by
    cases hi : bb.insts with
    | nil => rw [hi] at hhead; simp at hhead
    | cons i t =>
      rw [hi] at hhead
      simp only [List.head?_cons, Option.some_inj] at hhead
      exact ⟨t, by rw [hhead]⟩
  have hscan : scanFrom bb.insts 0 = some 0 := by
    simp [scanFrom, hinsts, isNewPCCall]
  rw [hinsts] at hscan
  simp only [getPC, seedCursor, getPCFuel]
  norm_num
  simp [getPCLoop, hfind, hscan, getPCFinal, hinsts, hs]

/-- Claim C9 witness, on the spec's worked example: `resolvePC` on the second
instruction of B4 returns `Found(0x1004, 2)`. -/
theorem claim_C9_witness : getPC exF (some 0) ⟨4, 1⟩ = .ok 4100 2 :=
  claim_C9_marker_successor exF (some 0) 4 exB4 4100 2 (by decide) (by decide) (by decide)

/-- Claim C10: a default-constructed `Architecture` has instruction alignment
1, default alignment 1, little endianness, pointer size 64 and delay-slot size
0. -/
theorem claim_C10_default_architecture :
    Architecture.mkDefault.instructionAlignment = 1 ∧
    Architecture.mkDefault.defaultAlignment = 1 ∧
    Architecture.mkDefault.endianess = EndianessType.LittleEndian ∧
    Architecture.mkDefault.isLittleEndian = true ∧
    Architecture.mkDefault.pointerSize = 64 ∧
    Architecture.mkDefault.delaySlotSize = 0 := by
  decide

/-- Claim C8 counterexample input: one non-empty marker-free block that is its
own predecessor. -/
def c8F : Func := ⟨[⟨0, [.other], [0]⟩], 10, 11, 12, some (0, "pc")⟩

/-- Claim C8, counterexample.  On `c8F` the single block is enqueued twice —
once as the seed and once as a predecessor (the seed block is never entered
into the visited set) — so the total number of worklist entries is 2, which
exceeds the block count 1. -/
theorem claim_C8_counterexample :
    getPCEnqueues c8F none ⟨0, 0⟩ = [⟨0, 0⟩, ⟨0, 0⟩] ∧ c8F.blocks.length = 1 := by
  decide

/-- Claim C8, amended: the search always terminates (the fuelled loop never
exhausts `blocks + 1` iterations), and the predecessor pushes are
visited-guarded so the total number of worklist entries — the seed plus the
pushes — is bounded by the number of blocks plus one (the bound `blocks` in
the original claim fails because the seed block may be re-enqueued, as the
counterexample shows). -/
theorem claim_C8_enqueue_bound (f : Func) (disp : Option Nat) (pt : Cursor) :
    (getPCEnqueues f disp pt).length ≤ f.blocks.length + 1 ∧
    getPC f disp pt ≠ .outOfFuel := by
  refine ⟨?_, getPC_ne_outOfFuel f disp pt⟩
  have h := getPCLoopE_length f disp (getPCFuel f) none [] [seedCursor pt] [seedCursor pt]
  have h2 : unvisitedCount f [] ≤ f.blocks.length := List.countP_le_length _
  simp only [List.length_singleton] at h
  simpa [getPCEnqueues] using le_trans h (by omega)

/-! ### Claim C1: the second-marker abort only ever fires on a distinct marker -/

/-- Variant of `getPCLoop` whose second-marker check compares identities: a
`newpc` find that IS the already-recorded candidate (same block, same index) is
ignored, and only a genuinely distinct second find returns Unknown `{0, 0}`.
The source compares `NewPCCall` against `nullptr` only; `getPCLoopD_eq` shows
the two loops agree on every input, i.e. a same-marker re-find never occurs. -/
def getPCLoopD (f : Func) (disp : Option Nat) : Nat → Option (Nat × Nat) → List Nat → List Cursor → GetPCResult
  | _, newPC, _, [] => getPCFinal f newPC
  | 0, _, _, _ :: _ => .outOfFuel
  | fuel + 1, newPC, vis, c :: rest =>
    match f.find? c.bid with
    | none => getPCLoopD f disp fuel newPC vis rest
    | some bb =>
      match scanFrom bb.insts c.idx with
      | some j =>
        match newPC with
        | some q =>
          if q = (c.bid, j) then getPCLoopD f disp fuel (some q) vis rest
          else .ok 0 0
        | none => getPCLoopD f disp fuel (some (c.bid, j)) vis rest
      | none =>
        match newPC with
        | some q => getPCLoopD f disp fuel (some q) vis rest
        | none =>
          if bb.preds.any (fun p => decide (disp = some p)) then .assertFail
          else
            let r := pushPreds f bb.preds rest vis
            getPCLoopD f disp fuel none r.2 r.1

/-- Resolver `getPC` built on the identity-comparing loop. -/
def getPCDistinct (f : Func) (disp : Option Nat) (pt : Cursor) : GetPCResult :=
  getPCLoopD f disp (getPCFuel f) none [] [seedCursor pt]

theorem pushPreds_inv (f : Func) :
    ∀ (ps : List Nat) (wl : List Cursor) (vis : List Nat),
      (∀ c ∈ wl, c.bid ∈ vis) → (wl.map Cursor.bid).Nodup →
      (∀ c ∈ (pushPreds f ps wl vis).1, c.bid ∈ (pushPreds f ps wl vis).2) ∧
      ((pushPreds f ps wl vis).1.map Cursor.bid).Nodup := by
  intro ps
  induction ps with
  | nil => intro wl vis h1 h2; exact ⟨h1, h2⟩
  | cons p ps ih =>
    intro wl vis h1 h2
    simp only [pushPreds]
    cases hfind : f.find? p with
    | none => exact ih wl vis h1 h2
    | some pb =>
      by_cases hc : pb.insts ≠ [] ∧ p ∉ vis
      · simp only [if_pos hc]
        apply ih
        · intro c hcmem
          rcases List.mem_append.mp hcmem with hcl | hcr
          · exact List.mem_cons_of_mem _ (h1 c hcl)
          · have : c = ⟨p, pb.insts.length - 1⟩ := List.mem_singleton.mp hcr
            subst this
            exact List.mem_cons_self _ _
        · rw [List.map_append]
          rw [List.nodup_append]
          refine ⟨h2, List.nodup_singleton _, ?_⟩
          intro x hx
          have hxvis : x ∈ vis := by
            rcases List.mem_map.mp hx with ⟨c, hcmem, hcx⟩
            exact hcx ▸ h1 c hcmem
          simp only [List.map_cons, List.map_nil, List.mem_singleton]
          intro hxp
          exact hc.2 (hxp ▸ hxvis)
      · simp only [if_neg hc]
        exact ih wl vis h1 h2

theorem getPCLoopD_eq_loop (f : Func) (disp : Option Nat) :
    ∀ (fuel : Nat) (newPC : Option (Nat × Nat)) (vis : List Nat) (wl : List Cursor),
      (∀ c ∈ wl, c.bid ∈ vis) → ((wl.map Cursor.bid).Nodup) →
      (∀ b j, newPC = some (b, j) → ∀ c ∈ wl, c.bid ≠ b) →
      getPCLoopD f disp fuel newPC vis wl = getPCLoop f disp fuel newPC vis wl := by
  intro fuel
  induction fuel with
  | zero => intro newPC vis wl _ _ _; cases wl <;> rfl
  | succ n ih =>
    intro newPC vis wl h1 h2 h3
    cases wl with
    | nil => rfl
    | cons c rest =>
      have h1r : ∀ x ∈ rest, x.bid ∈ vis := fun x hx => h1 x (List.mem_cons_of_mem _ hx)
      have h2m : (rest.map Cursor.bid).Nodup ∧ c.bid ∉ rest.map Cursor.bid := by
        simp only [List.map_cons, List.nodup_cons] at h2
        exact ⟨h2.2, h2.1⟩
      have h3r : ∀ b j, newPC = some (b, j) → ∀ x ∈ rest, x.bid ≠ b :=
        fun b j hq x hx => h3 b j hq x (List.mem_cons_of_mem _ hx)
      cases hfind : f.find? c.bid with
      | none =>
        simp only [getPCLoopD, getPCLoop, hfind]
        exact ih newPC vis rest h1r h2m.1 h3r
      | some bb =>
        cases hscan : scanFrom bb.insts c.idx with
        | some j =>
          cases newPC with
          | none =>
            simp only [getPCLoopD, getPCLoop, hfind, hscan, Option.isSome_none,
              Bool.false_eq_true, if_false]
            apply ih _ _ _ h1r h2m.1
            intro b j2 hq x hx hxb
            have hb : c.bid = b := congrArg Prod.fst (Option.some_inj.mp hq)
            exact h2m.2 (List.mem_map.mpr ⟨x, hx, by rw [hxb, ← hb]⟩)
          | some q =>
            have hne : ¬ q = (c.bid, j) := by
              obtain ⟨qb, qj⟩ := q
              have hq := h3 qb qj rfl c (List.mem_cons_self c rest)
              intro hcontra
              rw [Prod.ext_iff] at hcontra
              exact hq hcontra.1.symm
            simp only [getPCLoopD, getPCLoop, hfind, hscan, Option.isSome_some,
              if_true, if_neg hne]
        | none =>
          cases newPC with
          | some q =>
            simp only [getPCLoopD, getPCLoop, hfind, hscan]
            exact ih (some q) vis rest h1r h2m.1 h3r
          | none =>
            simp only [getPCLoopD, getPCLoop, hfind, hscan]
            split
            · rfl
            · have hinv := pushPreds_inv f bb.preds rest vis h1r h2m.1
              exact ih none _ _ hinv.1 hinv.2 (fun b j hq => nomatch hq)

/-- Claim C1: (1) whenever the backward scan encounters a `newpc` call while a
candidate marker distinct from it is already recorded, the search aborts and
returns Unknown `{0, 0}`; (2) the source's identity-blind second-find check is
equivalent to the identity-comparing one — on every input, `getPC` equals the
variant that ignores a re-find of the recorded candidate itself — because the
visited-set discipline makes a same-marker re-find impossible, so finding the
same single marker again never causes Unknown. -/
theorem claim_C1_second_marker :
    (∀ (f : Func) (disp : Option Nat) (fuel : Nat) (q : Nat × Nat) (vis : List Nat)
      (c : Cursor) (rest : List Cursor) (bb : BasicBlock) (j : Nat),
      f.find? c.bid = some bb → scanFrom bb.insts c.idx = some j → q ≠ (c.bid, j) →
      getPCLoop f disp (fuel + 1) (some q) vis (c :: rest) = .ok 0 0) ∧
    (∀ (f : Func) (disp : Option Nat) (pt : Cursor),
      getPCDistinct f disp pt = getPC f disp pt) := by
  constructor
  · intro f disp fuel q vis c rest bb j hfind hscan _
    simp [getPCLoop, hfind, hscan]
  · intro f disp pt
    simp only [getPCDistinct, getPC, getPCFuel]
    cases hfind : f.find? (seedCursor pt).bid with
    | none =>
      simp only [getPCLoopD, getPCLoop, hfind]
    | some bb =>
      cases hscan : scanFrom bb.insts (seedCursor pt).idx with
      | some j =>
        simp only [getPCLoopD, getPCLoop, hfind, hscan, Option.isSome_none,
          Bool.false_eq_true, if_false]
      | none =>
        simp only [getPCLoopD, getPCLoop, hfind, hscan]
        split
        · rfl
        · have hinv := pushPreds_inv f bb.preds [] []
            (fun c hc => absurd hc (List.not_mem_nil c)) List.nodup_nil
          exact getPCLoopD_eq_loop f disp _ none _ _ hinv.1 hinv.2
            (fun b j hq => nomatch hq)

/-- Claim C1 witness: part (1) at a concrete loop state with a distinct
recorded candidate, and part (2) on the spec's worked example. -/
theorem claim_C1_witness :
    getPCLoop c2F none 1 (some (5, 5)) [] [⟨0, 0⟩] = .ok 0 0 ∧
    getPCDistinct exF (some 0) ⟨4, 1⟩ = getPC exF (some 0) ⟨4, 1⟩ :=
  ⟨claim_C1_second_marker.1 c2F none 0 (5, 5) [] ⟨0, 0⟩ []
      ⟨0, [mkMarker 4096 4, .other], []⟩ 0 (by decide) (by decide) (by decide),
    claim_C1_second_marker.2 exF (some 0) ⟨4, 1⟩⟩

/-! ### Claims about classification -/

/-- The address key a jump-target block contributes to the `JumpTargets`
table: the first argument operand of its leading marker call. -/
def jtKey (bb : BasicBlock) : Nat :=
  match bb.insts.head? with
  | some (.call _ args) => args.getD 0 0
  | _ => 0

/-- Whether `bb` is a non-empty block of role `t` (empty blocks are skipped by
the classification loop and carry no role). -/
def isRoleBlock (f : Func) (t : BlockType) (bb : BasicBlock) : Bool :=
  decide (bb.insts ≠ []) && decide (getType f bb = t)

theorem runOnFunction_some (f : Func) (info : GCBI)
    (h : runOnFunction f = some info) :
    ∃ dss pc, f.archMD = some (dss, pc) ∧
      classifyBlocks f f.blocks ⟨none, none, none, [], dss, pc⟩ = some info ∧
      info.dispatcher.isSome ∧ info.anyPC.isSome ∧ info.unexpectedPC.isSome := by
  unfold runOnFunction at h
  cases hmd : f.archMD with
  | none => rw [hmd] at h; cases h
  | some md =>
    obtain ⟨dss, pc⟩ := md
    rw [hmd] at h
    dsimp only at h
    cases hcl : classifyBlocks f f.blocks ⟨none, none, none, [], dss, pc⟩ with
    | none => rw [hcl] at h; cases h
    | some st =>
      rw [hcl] at h
      dsimp only at h
      split at h
      · rename_i hsing
        obtain rfl : st = info := Option.some_inj.mp h
        exact ⟨dss, pc, rfl, hcl, hsing.1, hsing.2.1, hsing.2.2⟩
      · cases h

/-- Claim C4: classification never returns a partial result — whenever
`runOnFunction` returns a `GCBI` at all, all three singleton blocks have been
found; by the final check (`generatedcodebasicinfo.cpp:70-72`), if any is
missing the run fails fatally instead. -/
theorem claim_C4_singletons_required (f : Func) (info : GCBI)
    (hrun : runOnFunction f = some info) :
    info.dispatcher.isSome ∧ info.anyPC.isSome ∧ info.unexpectedPC.isSome := by
  obtain ⟨dss, pc, _, _, h1, h2, h3⟩ := runOnFunction_some f info hrun
  exact ⟨h1, h2, h3⟩

/-- Claim C4 witness, on the spec's worked example. -/
theorem claim_C4_witness :
    exInfo.dispatcher.isSome ∧ exInfo.anyPC.isSome ∧ exInfo.unexpectedPC.isSome :=
  claim_C4_singletons_required exF exInfo (by decide)

theorem classifyBlock_effects (f : Func) (st : GCBI) (bb : BasicBlock) (st1 : GCBI)
    (h : classifyBlock f st bb = some st1) :
    ((isRoleBlock f .DispatcherBlock bb = true ∧ st.dispatcher = none ∧
        st1.dispatcher = some bb.id) ∨
      (isRoleBlock f .DispatcherBlock bb = false ∧ st1.dispatcher = st.dispatcher)) ∧
    ((isRoleBlock f .AnyPCBlock bb = true ∧ st.anyPC = none ∧
        st1.anyPC = some bb.id) ∨
      (isRoleBlock f .AnyPCBlock bb = false ∧ st1.anyPC = st.anyPC)) ∧
    ((isRoleBlock f .UnexpectedPCBlock bb = true ∧ st.unexpectedPC = none ∧
        st1.unexpectedPC = some bb.id) ∨
      (isRoleBlock f .UnexpectedPCBlock bb = false ∧ st1.unexpectedPC = st.unexpectedPC)) ∧
    ((bb.insts ≠ [] ∧ getType f bb = .JumpTargetBlock ∧
        st1.jumpTargets = jtInsert (jtKey bb) bb.id st.jumpTargets) ∨
      ((bb.insts = [] ∨ getType f bb ≠ .JumpTargetBlock) ∧
        st1.jumpTargets = st.jumpTargets)) := by
  unfold classifyBlock at h
  by_cases hempty : bb.insts = []
  · rw [if_pos hempty] at h
    obtain rfl : st = st1 := Option.some_inj.mp h
    refine ⟨Or.inr ⟨?_, rfl⟩, Or.inr ⟨?_, rfl⟩, Or.inr ⟨?_, rfl⟩,
      Or.inr ⟨Or.inl hempty, rfl⟩⟩ <;> simp [isRoleBlock, hempty]
  · rw [if_neg hempty] at h
    cases ht : getType f bb with
    | DispatcherBlock =>
      rw [ht] at h
      cases hd : st.dispatcher with
      | some x => rw [hd] at h; cases h
      | none =>
        rw [hd] at h
        obtain rfl : { st with dispatcher := some bb.id } = st1 := Option.some_inj.mp h
        refine ⟨Or.inl ⟨?_, rfl, rfl⟩, Or.inr ⟨?_, rfl⟩, Or.inr ⟨?_, rfl⟩,
          Or.inr ⟨Or.inr ?_, rfl⟩⟩ <;> simp [isRoleBlock, hempty, ht]
    | AnyPCBlock =>
      rw [ht] at h
      cases hd : st.anyPC with
      | some x => rw [hd] at h; cases h
      | none =>
        rw [hd] at h
        obtain rfl : { st with anyPC := some bb.id } = st1 := Option.some_inj.mp h
        refine ⟨Or.inr ⟨?_, rfl⟩, Or.inl ⟨?_, rfl, rfl⟩, Or.inr ⟨?_, rfl⟩,
          Or.inr ⟨Or.inr ?_, rfl⟩⟩ <;> simp [isRoleBlock, hempty, ht]
    | UnexpectedPCBlock =>
      rw [ht] at h
      cases hd : st.unexpectedPC with
      | some x => rw [hd] at h; cases h
      | none =>
        rw [hd] at h
        obtain rfl : { st with unexpectedPC := some bb.id } = st1 := Option.some_inj.mp h
        refine ⟨Or.inr ⟨?_, rfl⟩, Or.inr ⟨?_, rfl⟩, Or.inl ⟨?_, rfl, rfl⟩,
          Or.inr ⟨Or.inr ?_, rfl⟩⟩ <;> simp [isRoleBlock, hempty, ht]
    | JumpTargetBlock =>
      rw [ht] at h
      cases hh : bb.insts.head? with
      | none => rw [hh] at h; cases h
      | some i =>
        cases i with
        | other => rw [hh] at h; cases h
        | call callee args =>
          rw [hh] at h
          dsimp only at h
          by_cases hcal : callee = some "newpc"
          · rw [if_pos hcal] at h
            obtain rfl : { st with jumpTargets := jtInsert (args.getD 0 0) bb.id st.jumpTargets } = st1 :=
              Option.some_inj.mp h
            refine ⟨Or.inr ⟨?_, rfl⟩, Or.inr ⟨?_, rfl⟩, Or.inr ⟨?_, rfl⟩,
              Or.inl ⟨hempty, rfl, ?_⟩⟩
            · simp [isRoleBlock, ht]
            · simp [isRoleBlock, ht]
            · simp [isRoleBlock, ht]
            · simp [jtKey, hh]
          · rw [if_neg hcal] at h; cases h
    | UntypedBlock =>
      rw [ht] at h
      obtain rfl : st = st1 := Option.some_inj.mp h
      refine ⟨Or.inr ⟨?_, rfl⟩, Or.inr ⟨?_, rfl⟩, Or.inr ⟨?_, rfl⟩,
        Or.inr ⟨Or.inr ?_, rfl⟩⟩ <;> simp [isRoleBlock, ht]

theorem classifyBlocks_count (f : Func) (t : BlockType) (sel : GCBI → Option Nat)
    (hsel : ∀ st bb st1, classifyBlock f st bb = some st1 →
      (isRoleBlock f t bb = true ∧ sel st = none ∧ sel st1 = some bb.id) ∨
      (isRoleBlock f t bb = false ∧ sel st1 = sel st)) :
    ∀ (bbs : List BasicBlock) (st st2 : GCBI),
      classifyBlocks f bbs st = some st2 →
      bbs.countP (isRoleBlock f t) + (if (sel st).isSome then 1 else 0)
        = (if (sel st2).isSome then 1 else 0) := by
  intro bbs
  induction bbs with
  | nil =>
    intro st st2 h
    obtain rfl : st = st2 := Option.some_inj.mp h
    simp [List.countP_nil]
  | cons bb bbs ih =>
    intro st st2 h
    simp only [classifyBlocks] at h
    cases hcb : classifyBlock f st bb with
    | none => rw [hcb] at h; cases h
    | some st1 =>
      rw [hcb] at h
      have hstep := hsel st bb st1 hcb
      have hih := ih st1 st2 h
      rw [List.countP_cons]
      rcases hstep with ⟨hrole, hnone, hsome⟩ | ⟨hrole, heq⟩
      · rw [hsome] at hih
        rw [hnone]
        simp only [hrole, Option.isSome_none, Option.isSome_some,
          Bool.false_eq_true, if_true, if_false] at hih ⊢
        omega
      · rw [heq] at hih
        simp only [hrole, Bool.false_eq_true, if_false]
        omega

/-- Claim C5: (1) on any function accepted by classification there is exactly
one non-empty block of each of the three singleton roles (so the recorded
Dispatcher, AnyPC and UnexpectedPC are each unique); (2) assigning a singleton
role whose slot is already filled makes the classification step fail its
assertion (`generatedcodebasicinfo.cpp:45,49,53`).  Each visited block
receives exactly the single role computed by `getType`. -/
theorem claim_C5_singleton_roles (f : Func) :
    (∀ (info : GCBI), runOnFunction f = some info →
      f.blocks.countP (isRoleBlock f .DispatcherBlock) = 1 ∧
      f.blocks.countP (isRoleBlock f .AnyPCBlock) = 1 ∧
      f.blocks.countP (isRoleBlock f .UnexpectedPCBlock) = 1) ∧
    (∀ (st : GCBI) (bb : BasicBlock), bb.insts ≠ [] →
      (getType f bb = .DispatcherBlock → st.dispatcher.isSome →
        classifyBlock f st bb = none) ∧
      (getType f bb = .AnyPCBlock → st.anyPC.isSome →
        classifyBlock f st bb = none) ∧
      (getType f bb = .UnexpectedPCBlock → st.unexpectedPC.isSome →
        classifyBlock f st bb = none)) := by
  constructor
  · intro info hrun
    obtain ⟨dss, pc, hmd, hcl, h1, h2, h3⟩ := runOnFunction_some f info hrun
    refine ⟨?_, ?_, ?_⟩
    · have := classifyBlocks_count f .DispatcherBlock GCBI.dispatcher
        (fun st bb st1 h => (classifyBlock_effects f st bb st1 h).1) f.blocks _ info hcl
      simp only [h1, if_true] at this
      simpa using this
    · have := classifyBlocks_count f .AnyPCBlock GCBI.anyPC
        (fun st bb st1 h => (classifyBlock_effects f st bb st1 h).2.1) f.blocks _ info hcl
      simp only [h2, if_true] at this
      simpa using this
    · have := classifyBlocks_count f .UnexpectedPCBlock GCBI.unexpectedPC
        (fun st bb st1 h => (classifyBlock_effects f st bb st1 h).2.2.1) f.blocks _ info hcl
      simp only [h3, if_true] at this
      simpa using this
  · intro st bb hne
    refine ⟨?_, ?_, ?_⟩ <;> intro ht hsome
    · unfold classifyBlock
      rw [if_neg hne, ht]
      obtain ⟨x, hx⟩ := Option.isSome_iff_exists.mp hsome
      rw [hx]
    · unfold classifyBlock
      rw [if_neg hne, ht]
      obtain ⟨x, hx⟩ := Option.isSome_iff_exists.mp hsome
      rw [hx]
    · unfold classifyBlock
      rw [if_neg hne, ht]
      obtain ⟨x, hx⟩ := Option.isSome_iff_exists.mp hsome
      rw [hx]

/-- Claim C5 witness: the example function has exactly one block per singleton
role, and re-assigning an already-filled Dispatcher slot fails. -/
theorem claim_C5_witness :
    (exF.blocks.countP (isRoleBlock exF .DispatcherBlock) = 1 ∧
      exF.blocks.countP (isRoleBlock exF .AnyPCBlock) = 1 ∧
      exF.blocks.countP (isRoleBlock exF .UnexpectedPCBlock) = 1) ∧
    classifyBlock exF ⟨some 5, none, none, [], 0, "pc"⟩ exB0 = none :=
  ⟨(claim_C5_singleton_roles exF).1 exInfo (by decide),
    ((claim_C5_singleton_roles exF).2 ⟨some 5, none, none, [], 0, "pc"⟩ exB0
      (by decide)).1 (by decide) (by decide)⟩

theorem jumpTargetFor_jtInsert_self (m : List (Nat × Nat)) (a v : Nat) :
    jumpTargetFor (jtInsert a v m) a = some v := by
  induction m with
  | nil => simp [jtInsert, jumpTargetFor]
  | cons e rest ih =>
    obtain ⟨ea, ev⟩ := e
    simp only [jtInsert]
    by_cases h : ea = a
    · rw [if_pos h]
      simp [jumpTargetFor]
    · rw [if_neg h]
      have hbe : (ea == a) = false := beq_eq_false_iff_ne.mpr h
      simpa [jumpTargetFor, List.find?_cons, hbe] using ih

theorem jumpTargetFor_jtInsert_ne (m : List (Nat × Nat)) (a v a2 : Nat) (h : a2 ≠ a) :
    jumpTargetFor (jtInsert a v m) a2 = jumpTargetFor m a2 := by
  have hba : (a == a2) = false := beq_eq_false_iff_ne.mpr (Ne.symm h)
  induction m with
  | nil => simp [jtInsert, jumpTargetFor, hba]
  | cons e rest ih =>
    obtain ⟨ea, ev⟩ := e
    simp only [jtInsert]
    by_cases he : ea = a
    · rw [if_pos he]
      subst he
      simp [jumpTargetFor, List.find?_cons, hba]
    · rw [if_neg he]
      by_cases h2 : ea = a2
      · subst h2
        simp [jumpTargetFor, List.find?_cons]
      · have hbe : (ea == a2) = false := beq_eq_false_iff_ne.mpr h2
        simpa [jumpTargetFor, List.find?_cons, hbe] using ih

theorem jtInsert_keys_mem (a v : Nat) :
    ∀ (m : List (Nat × Nat)), ∀ x ∈ (jtInsert a v m).map Prod.fst,
      x = a ∨ x ∈ m.map Prod.fst := by
  intro m
  induction m with
  | nil => intro x hx; simp [jtInsert] at hx; exact Or.inl hx
  | cons e rest ih =>
    obtain ⟨ea, ev⟩ := e
    intro x hx
    simp only [jtInsert] at hx
    by_cases he : ea = a
    · rw [if_pos he] at hx
      simp only [List.map_cons, List.mem_cons] at hx
      rcases hx with rfl | hx
      · exact Or.inl rfl
      · exact Or.inr (by simp [hx])
    · rw [if_neg he] at hx
      simp only [List.map_cons, List.mem_cons] at hx
      rcases hx with rfl | hx
      · exact Or.inr (by simp)
      · rcases ih x hx with h1 | h1
        · exact Or.inl h1
        · exact Or.inr (by simp [h1])

theorem jtInsert_keys_nodup (a v : Nat) :
    ∀ (m : List (Nat × Nat)), (m.map Prod.fst).Nodup →
      ((jtInsert a v m).map Prod.fst).Nodup := by
  intro m
  induction m with
  | nil => intro _; simp [jtInsert]
  | cons e rest ih =>
    obtain ⟨ea, ev⟩ := e
    intro h
    simp only [List.map_cons, List.nodup_cons] at h
    simp only [jtInsert]
    by_cases he : ea = a
    · rw [if_pos he]
      simp only [List.map_cons, List.nodup_cons]
      exact ⟨he ▸ h.1, h.2⟩
    · rw [if_neg he]
      simp only [List.map_cons, List.nodup_cons]
      refine ⟨?_, ih h.2⟩
      intro hmem
      rcases jtInsert_keys_mem a v rest ea hmem with h1 | h1
      · exact he h1
      · exact h.1 h1

theorem classifyBlocks_keys_nodup (f : Func) :
    ∀ (bbs : List BasicBlock) (st st2 : GCBI),
      classifyBlocks f bbs st = some st2 →
      (st.jumpTargets.map Prod.fst).Nodup →
      (st2.jumpTargets.map Prod.fst).Nodup := by
  intro bbs
  induction bbs with
  | nil =>
    intro st st2 h hn
    obtain rfl : st = st2 := Option.some_inj.mp h
    exact hn
  | cons bb bbs ih =>
    intro st st2 h hn
    simp only [classifyBlocks] at h
    cases hcb : classifyBlock f st bb with
    | none => rw [hcb] at h; cases h
    | some st1 =>
      rw [hcb] at h
      rcases (classifyBlock_effects f st bb st1 hcb).2.2.2 with ⟨_, _, hjt⟩ | ⟨_, hjt⟩
      · exact ih st1 st2 h (hjt ▸ jtInsert_keys_nodup _ _ _ hn)
      · exact ih st1 st2 h (hjt ▸ hn)

theorem classifyBlocks_jt_preserved (f : Func) :
    ∀ (bbs : List BasicBlock) (st st2 : GCBI) (k v : Nat),
      classifyBlocks f bbs st = some st2 →
      jumpTargetFor st.jumpTargets k = some v →
      (∀ b ∈ bbs, b.insts ≠ [] → getType f b = .JumpTargetBlock → jtKey b = k →
        b.id = v) →
      jumpTargetFor st2.jumpTargets k = some v := by
  intro bbs
  induction bbs with
  | nil =>
    intro st st2 k v h hl _
    obtain rfl : st = st2 := Option.some_inj.mp h
    exact hl
  | cons bb bbs ih =>
    intro st st2 k v h hl hall
    simp only [classifyBlocks] at h
    cases hcb : classifyBlock f st bb with
    | none => rw [hcb] at h; cases h
    | some st1 =>
      rw [hcb] at h
      have hallr : ∀ b ∈ bbs, b.insts ≠ [] → getType f b = .JumpTargetBlock →
          jtKey b = k → b.id = v :=
        fun b hb => hall b (List.mem_cons_of_mem _ hb)
      rcases (classifyBlock_effects f st bb st1 hcb).2.2.2 with ⟨hne, ht, hjt⟩ | ⟨_, hjt⟩
      · by_cases hk : jtKey bb = k
        · have hid : bb.id = v := hall bb (List.mem_cons_self _ _) hne ht hk
          apply ih st1 st2 k v h _ hallr
          rw [hjt, hk, hid]
          exact jumpTargetFor_jtInsert_self _ _ _
        · apply ih st1 st2 k v h _ hallr
          rw [hjt, jumpTargetFor_jtInsert_ne _ _ _ _ (fun hh => hk hh.symm)]
          exact hl
      · apply ih st1 st2 k v h _ hallr
        rw [hjt]
        exact hl

theorem classifyBlocks_jt_lookup (f : Func) :
    ∀ (bbs : List BasicBlock) (st st2 : GCBI),
      classifyBlocks f bbs st = some st2 →
      ∀ bb ∈ bbs, bb.insts ≠ [] → getType f bb = .JumpTargetBlock →
      (∀ b2 ∈ bbs, b2.insts ≠ [] → getType f b2 = .JumpTargetBlock →
        jtKey b2 = jtKey bb → b2.id = bb.id) →
      jumpTargetFor st2.jumpTargets (jtKey bb) = some bb.id := by
  intro bbs
  induction bbs with
  | nil => intro st st2 _ bb hmem; cases hmem
  | cons b bbs ih =>
    intro st st2 h bb hmem hne ht hkeys
    simp only [classifyBlocks] at h
    cases hcb : classifyBlock f st b with
    | none => rw [hcb] at h; cases h
    | some st1 =>
      rw [hcb] at h
      rcases List.mem_cons.mp hmem with rfl | hmem2
      · rcases (classifyBlock_effects f st bb st1 hcb).2.2.2 with ⟨_, _, hjt⟩ | ⟨hcon, _⟩
        · apply classifyBlocks_jt_preserved f bbs st1 st2 (jtKey bb) bb.id h
          · rw [hjt]
            exact jumpTargetFor_jtInsert_self _ _ _
          · intro b2 hb2 hb2ne hb2t hb2k
            exact hkeys b2 (List.mem_cons_of_mem _ hb2) hb2ne hb2t hb2k
        · rcases hcon with hc | hc
          · exact absurd hc hne
          · exact absurd ht hc
      · exact ih st1 st2 h bb hmem2 hne ht
          (fun b2 hb2 => hkeys b2 (List.mem_cons_of_mem _ hb2))

/-- Claim C3: after a successful classification of a function whose non-empty
jump-target blocks carry pairwise distinct leading marker addresses (the
producer's 1:1 contract), the `JumpTargets` table has unique address keys, and
for every jump-target block the address of its leading marker call is its key:
`jumpTargetFor` at that address returns exactly that block. -/
theorem claim_C3_jump_target_table (f : Func) (info : GCBI)
    (hrun : runOnFunction f = some info)
    (hkeys : ∀ b1 ∈ f.blocks, ∀ b2 ∈ f.blocks, b1.insts ≠ [] → b2.insts ≠ [] →
      getType f b1 = .JumpTargetBlock → getType f b2 = .JumpTargetBlock →
      jtKey b1 = jtKey b2 → b1.id = b2.id) :
    (info.jumpTargets.map Prod.fst).Nodup ∧
    ∀ bb ∈ f.blocks, bb.insts ≠ [] → getType f bb = .JumpTargetBlock →
      jumpTargetFor info.jumpTargets (jtKey bb) = some bb.id := by
  obtain ⟨dss, pc, hmd, hcl, _, _, _⟩ := runOnFunction_some f info hrun
  constructor
  · exact classifyBlocks_keys_nodup f f.blocks _ info hcl (by simp)
  · intro bb hmem hne ht
    exact classifyBlocks_jt_lookup f f.blocks _ info hcl bb hmem hne ht
      (fun b2 hb2 hb2ne hb2t hb2k => hkeys b2 hb2 bb hmem hb2ne hne hb2t ht hb2k)

/-- Claim C3 witness, on the spec's worked example: the table is
`{0x1000 ↦ B3, 0x1004 ↦ B4}` with unique keys and exact lookups. -/
theorem claim_C3_witness :
    (exInfo.jumpTargets.map Prod.fst).Nodup ∧
    ∀ bb ∈ exF.blocks, bb.insts ≠ [] → getType exF bb = .JumpTargetBlock →
      jumpTargetFor exInfo.jumpTargets (jtKey bb) = some bb.id :=
  claim_C3_jump_target_table exF exInfo (by decide) (by decide)

/-- Claim C6 witness: on `c6F`, popping the cursor for block 1 (which holds no
marker) with no candidate recorded finds the dispatcher (block 0) among its
predecessors and fails the assertion; this is exactly the first state reached
by `getPC c6F (some 0) ⟨1, 0⟩`. -/
theorem claim_C6_witness :
    getPCLoop c6F (some 0) 3 none [] [⟨1, 0⟩] = .assertFail :=
  claim_C6_dispatcher_assert c6F (some 0) 2 [] ⟨1, 0⟩ [] ⟨1, [.other], [0]⟩ 0
    (by decide) (by decide) (by decide) rfl
